import Mathlib

/-!
Verification of the tree-materialization core of the `whatsapp-clone`
scaffolding script (`src/web/p.py`).

The script walks a nested `dict` describing a project layout.  For each
entry it computes `path = base / name`; a `dict` value makes it call
`path.mkdir(parents=True, exist_ok=True)` and recurse, any other value
makes it call `path.touch()`.  The entry point builds the literal catalog
`structure`, creates `cwd / "whatsapp-web-clone"` with
`mkdir(exist_ok=True)` and invokes the walk on it.

We embed the filesystem as an association list from paths (lists of name
components) to entries (directory, or file with content), and embed the
`pathlib` primitives the script uses with their POSIX semantics:

* `mkdir(parents=True, exist_ok=True)` creates every missing prefix as a
  directory and fails if some prefix is an existing file;
* `mkdir(exist_ok=True)` (no parents) requires the parent to exist as a
  directory and fails if the target is an existing file;
* `touch()` is a no-op whenever the target exists (file *or* directory),
  creates an empty file when the target is missing and the parent is a
  directory, and fails otherwise.

Operations return the resulting filesystem together with an optional
error, so that the state reached before a failure stays observable —
exceptions in the script abort the walk but leave the disk as is.
-/

set_option autoImplicit false

set_option maxHeartbeats 1000000

namespace WhatsappScaffold

/-- A path is the list of name components below the filesystem root. -/
abbrev Path := List String

/-- An on-disk entry: a directory, or a file carrying its byte content. -/
inductive Entry where
  | dir : Entry
  | file (content : String) : Entry
deriving DecidableEq

/-- The filesystem state: an association list from paths to entries.
New entries are consed in front; an entry present for a path is never
rewritten (the embedded primitives only insert at missing paths). -/
abbrev FS := List (Path × Entry)

/-- Errors raised by the embedded `pathlib` primitives. -/
inductive Err where
  | fileExists (p : Path) : Err
  | fileNotFound (p : Path) : Err
  | notADirectory (p : Path) : Err
deriving DecidableEq

/-- Look a path up in the filesystem (first matching entry). -/
def lookupFS : FS → Path → Option Entry
  | [], _ => none
  | (q, e) :: rest, p => if q = p then some e else lookupFS rest p

/-- `p` exists as a directory in `fs`. -/
def isDir (fs : FS) (p : Path) : Prop := lookupFS fs p = some Entry.dir

instance decidableIsDir (fs : FS) (p : Path) : Decidable (isDir fs p) :=
  inferInstanceAs (Decidable (lookupFS fs p = some Entry.dir))

/-- Boolean version of `isDir`. -/
def isDirB (fs : FS) (p : Path) : Bool :=
  match lookupFS fs p with
  | some Entry.dir => true
  | _ => false

/-- Boolean test for `p` existing as a file in `fs`. -/
def isFileB (fs : FS) (p : Path) : Bool :=
  match lookupFS fs p with
  | some (Entry.file _) => true
  | _ => false

/-- All initial segments of a path, shortest first, the path itself last. -/
def prefixes : Path → List Path
  | [] => [[]]
  | x :: xs => [] :: (prefixes xs).map (fun q => x :: q)

/-- One `os.mkdir`-with-`exist_ok` step as used inside `parents=True`
creation: an existing directory is accepted, an existing file is a
`FileExistsError`, a missing path is created as a directory.  (Parent
existence is guaranteed by the enclosing prefix iteration.) -/
def mkdirOne (fs : FS) (p : Path) : FS × Option Err :=
  match lookupFS fs p with
  | some Entry.dir => (fs, none)
  | some (Entry.file _) => (fs, some (Err.fileExists p))
  | none => ((p, Entry.dir) :: fs, none)

/-- Exception-style sequencing: run the continuation on the state the
first step reached, unless the first step raised, in which case the
raise propagates and the continuation never runs. -/
def andThen (r : FS × Option Err) (k : FS → FS × Option Err) : FS × Option Err :=
  match r with
  | (fs1, none) => k fs1
  | (fs1, some e) => (fs1, some e)

/-- Create every path of a list in order, stopping at the first error. -/
def mkdirList (fs : FS) : List Path → FS × Option Err
  | [] => (fs, none)
  | q :: rest => andThen (mkdirOne fs q) (fun fs1 => mkdirList fs1 rest)

/-- `Path.mkdir(parents=True, exist_ok=True)`: create every missing
prefix of `p` (shortest first), failing if some prefix is a file. -/
def mkdirParents (fs : FS) (p : Path) : FS × Option Err :=
  mkdirList fs (prefixes p)

/-- `Path.mkdir(exist_ok=True)` (no `parents`): the parent must already
be a directory; an existing directory at `p` is accepted, an existing
file at `p` is a `FileExistsError`. -/
def mkdirBase (fs : FS) (p : Path) : FS × Option Err :=
  match lookupFS fs p with
  | some Entry.dir => (fs, none)
  | some (Entry.file _) => (fs, some (Err.fileExists p))
  | none =>
    match lookupFS fs p.dropLast with
    | some Entry.dir => ((p, Entry.dir) :: fs, none)
    | some (Entry.file _) => (fs, some (Err.notADirectory p))
    | none => (fs, some (Err.fileNotFound p))

/-- `Path.touch()` (default `exist_ok=True`): a no-op when `p` exists,
whatever its kind (`os.utime` succeeds on directories too); otherwise an
empty file is created, which needs the parent to be a directory. -/
def touch (fs : FS) (p : Path) : FS × Option Err :=
  match lookupFS fs p with
  | some _ => (fs, none)
  | none =>
    match lookupFS fs p.dropLast with
    | some Entry.dir => ((p, Entry.file "") :: fs, none)
    | some (Entry.file _) => (fs, some (Err.notADirectory p))
    | none => (fs, some (Err.fileNotFound p))

/-- The declarative tree description: a mapping value (a directory with
named children, in iteration order) or a scalar value (a file with its
conventional seed content). -/
inductive Tree where
  | node (children : List (String × Tree)) : Tree
  | scalar (content : String) : Tree

mutual

/-- The script's `create_structure(base_path, structure)`: for each
`(name, content)` item, `path = base_path / name`; a mapping value gets
`path.mkdir(parents=True, exist_ok=True)` followed by recursion, any
other value gets `path.touch()`.  An exception aborts the remaining
iteration and propagates. -/
def create_structure (base : Path) (entries : List (String × Tree)) (fs : FS) :
    FS × Option Err :=
  match entries with
  | [] => (fs, none)
  | (name, t) :: rest =>
    andThen (create_entry (base ++ [name]) t fs)
      (fun fs1 => create_structure base rest fs1)

/-- Processing of a single `(name, content)` item of `create_structure`,
at its computed child path. -/
def create_entry (p : Path) (t : Tree) (fs : FS) : FS × Option Err :=
  match t with
  | Tree.node children =>
    andThen (mkdirParents fs p) (fun fs1 => create_structure p children fs1)
  | Tree.scalar _ => touch fs p

end

/-- The script's literal scaffold catalog `structure` (a Python keyword
clash forces the Lean name), entries in the source's insertion order.
Its single root key repeats the name of the base directory the entry
point creates. -/
def projectStructure : List (String × Tree) :=
  [("whatsapp-web-clone", Tree.node
    [("src", Tree.node
      [("app", Tree.node
        [("(auth)", Tree.node
          [("login", Tree.node [("page.tsx", Tree.scalar "")]),
           ("register", Tree.node [("page.tsx", Tree.scalar "")]),
           ("verify", Tree.node [("page.tsx", Tree.scalar "")]),
           ("layout.tsx", Tree.scalar "")]),
         ("(main)", Tree.node
          [("chat", Tree.node
            [("[chatId]", Tree.node [("page.tsx", Tree.scalar "")]),
             ("page.tsx", Tree.scalar "")]),
           ("profile", Tree.node [("page.tsx", Tree.scalar "")]),
           ("settings", Tree.node [("page.tsx", Tree.scalar "")]),
           ("layout.tsx", Tree.scalar "")]),
         ("api", Tree.node
          [("upload", Tree.node [("route.ts", Tree.scalar "")])]),
         ("globals.css", Tree.scalar ""),
         ("layout.tsx", Tree.scalar ""),
         ("loading.tsx", Tree.scalar ""),
         ("not-found.tsx", Tree.scalar ""),
         ("page.tsx", Tree.scalar "")]),
       ("components", Tree.node
        [("ui", Tree.node
          [("avatar.tsx", Tree.scalar ""),
           ("button.tsx", Tree.scalar ""),
           ("card.tsx", Tree.scalar ""),
           ("dialog.tsx", Tree.scalar ""),
           ("form.tsx", Tree.scalar ""),
           ("input.tsx", Tree.scalar ""),
           ("label.tsx", Tree.scalar ""),
           ("scroll-area.tsx", Tree.scalar ""),
           ("separator.tsx", Tree.scalar ""),
           ("toast.tsx", Tree.scalar ""),
           ("toaster.tsx", Tree.scalar ""),
           ("tooltip.tsx", Tree.scalar "")]),
         ("auth", Tree.node
          [("magic-link-form.tsx", Tree.scalar ""),
           ("qr-code-scanner.tsx", Tree.scalar ""),
           ("register-form.tsx", Tree.scalar ""),
           ("auth-guard.tsx", Tree.scalar "")]),
         ("chat", Tree.node
          [("chat-list.tsx", Tree.scalar ""),
           ("chat-item.tsx", Tree.scalar ""),
           ("chat-header.tsx", Tree.scalar ""),
           ("message-list.tsx", Tree.scalar ""),
           ("message-item.tsx", Tree.scalar ""),
           ("message-input.tsx", Tree.scalar ""),
           ("typing-indicator.tsx", Tree.scalar ""),
           ("message-status.tsx", Tree.scalar ""),
           ("new-chat-dialog.tsx", Tree.scalar "")]),
         ("media", Tree.node
          [("image-viewer.tsx", Tree.scalar ""),
           ("file-upload.tsx", Tree.scalar ""),
           ("voice-recorder.tsx", Tree.scalar ""),
           ("media-gallery.tsx", Tree.scalar "")]),
         ("layout", Tree.node
          [("sidebar.tsx", Tree.scalar ""),
           ("header.tsx", Tree.scalar ""),
           ("mobile-nav.tsx", Tree.scalar ""),
           ("search-bar.tsx", Tree.scalar "")]),
         ("common", Tree.node
          [("loading-spinner.tsx", Tree.scalar ""),
           ("error-boundary.tsx", Tree.scalar ""),
           ("theme-provider.tsx", Tree.scalar ""),
           ("socket-provider.tsx", Tree.scalar "")])]),
       ("lib", Tree.node
        [("utils.ts", Tree.scalar ""),
         ("auth.ts", Tree.scalar ""),
         ("api.ts", Tree.scalar ""),
         ("socket.ts", Tree.scalar ""),
         ("validation.ts", Tree.scalar ""),
         ("constants.ts", Tree.scalar ""),
         ("storage.ts", Tree.scalar "")]),
       ("hooks", Tree.node
        [("use-auth.ts", Tree.scalar ""),
         ("use-socket.ts", Tree.scalar ""),
         ("use-chat.ts", Tree.scalar ""),
         ("use-messages.ts", Tree.scalar ""),
         ("use-toast.ts", Tree.scalar ""),
         ("use-media-query.ts", Tree.scalar ""),
         ("use-local-storage.ts", Tree.scalar "")]),
       ("types", Tree.node
        [("auth.ts", Tree.scalar ""),
         ("chat.ts", Tree.scalar ""),
         ("message.ts", Tree.scalar ""),
         ("user.ts", Tree.scalar ""),
         ("api.ts", Tree.scalar "")]),
       ("store", Tree.node
        [("auth-store.ts", Tree.scalar ""),
         ("chat-store.ts", Tree.scalar ""),
         ("message-store.ts", Tree.scalar ""),
         ("ui-store.ts", Tree.scalar "")]),
       ("config", Tree.node
        [("env.ts", Tree.scalar ""),
         ("api-endpoints.ts", Tree.scalar "")])]),
     ("public", Tree.node
      [("icons", Tree.node
        [("whatsapp.svg", Tree.scalar ""),
         ("send.svg", Tree.scalar ""),
         ("attachment.svg", Tree.scalar "")]),
       ("images", Tree.node
        [("default-avatar.png", Tree.scalar ""),
         ("qr-code-placeholder.png", Tree.scalar ""),
         ("whatsapp-bg.jpg", Tree.scalar "")]),
       ("sounds", Tree.node
        [("notification.mp3", Tree.scalar ""),
         ("message-sent.mp3", Tree.scalar "")]),
       ("favicon.ico", Tree.scalar ""),
       ("manifest.json", Tree.scalar "")]),
     ("next.config.js", Tree.scalar ""),
     ("tailwind.config.js", Tree.scalar ""),
     ("tsconfig.json", Tree.scalar ""),
     ("components.json", Tree.scalar ""),
     (".env.local", Tree.scalar ""),
     (".env.example", Tree.scalar ""),
     (".gitignore", Tree.scalar ""),
     ("README.md", Tree.scalar ""),
     ("package.json", Tree.scalar "")])]

/-- The script's `create_directory_structure()` body after the literal:
`base_dir = Path.cwd() / "whatsapp-web-clone"`, then
`base_dir.mkdir(exist_ok=True)`, then
`create_structure(base_dir, structure)`.  `cwd` stands for `Path.cwd()`.
The final `print` has no filesystem effect and is not modelled. -/
def create_directory_structure (cwd : Path) (fs : FS) : FS × Option Err :=
  andThen (mkdirBase fs (cwd ++ ["whatsapp-web-clone"]))
    (fun fs1 => create_structure (cwd ++ ["whatsapp-web-clone"]) projectStructure fs1)

mutual

/-- Every path reachable by concatenating keys from `base` into the
entry list, paired with `none` for a mapping node (a directory) and
`some c` for a scalar node with content `c` (a file). -/
def entryPaths (base : Path) : List (String × Tree) → List (Path × Option String)
  | [] => []
  | (name, t) :: rest => nodePaths (base ++ [name]) t ++ entryPaths base rest

/-- The paths contributed by a single node placed at path `p`. -/
def nodePaths (p : Path) : Tree → List (Path × Option String)
  | Tree.node children => (p, none) :: entryPaths p children
  | Tree.scalar c => [(p, some c)]

end

mutual

/-- Key uniqueness among siblings, at every level of an entry list.
A Python `dict` guarantees this for every tree the script can build. -/
def nodupKeysL : List (String × Tree) → Bool
  | [] => true
  | (name, t) :: rest =>
    rest.all (fun q => q.1 ≠ name) && nodupKeysT t && nodupKeysL rest

/-- Key uniqueness among siblings, at every level below a single node. -/
def nodupKeysT : Tree → Bool
  | Tree.node children => nodupKeysL children
  | Tree.scalar _ => true

end

/-- `fs'` extends `fs`: every path bound in `fs` keeps its entry.  All
embedded operations only insert entries at missing paths, so every
state they produce extends the state they started from. -/
def FSLE (fs fs' : FS) : Prop :=
  ∀ p e, lookupFS fs p = some e → lookupFS fs' p = some e

/-- `fs'` extends `fs` and any path bound in `fs'` but not in `fs` is
bound to a directory or to an empty file — the only two things any
embedded operation ever creates. -/
def Grows (fs fs' : FS) : Prop :=
  ∀ p, lookupFS fs' p = lookupFS fs p ∨
    (lookupFS fs p = none ∧
      (lookupFS fs' p = some Entry.dir ∨ lookupFS fs' p = some (Entry.file "")))

mutual

/-- Every obligation of `create_structure base entries` already holds in
`fs`: each mapping path (with all its prefixes) exists as a directory and
each scalar path exists, with some kind. -/
def doneL (base : Path) (fs : FS) : List (String × Tree) → Bool
  | [] => true
  | (name, t) :: rest => doneT (base ++ [name]) fs t && doneL base fs rest

/-- Obligations of a single node placed at path `p`. -/
def doneT (p : Path) (fs : FS) : Tree → Bool
  | Tree.node children =>
    (prefixes p).all (fun q => isDirB fs q) && doneL p fs children
  | Tree.scalar _ => (lookupFS fs p).isSome

end

/-- `q` is an initial segment of `p` (as component lists). -/
def initSeg (q p : Path) : Prop := ∃ r, q ++ r = p

/-- The two filesystem calls `create_structure` performs on child paths. -/
inductive Op where
  | mkdirp (p : Path) : Op
  | touchOp (p : Path) : Op
deriving DecidableEq

/-- The child path an operation references. -/
def Op.path : Op → Path
  | Op.mkdirp p => p
  | Op.touchOp p => p

/-- Result of the instrumented walk: final state, outcome, and the
chronological list of performed operations, each paired with the
filesystem state at the moment the call was issued. -/
structure TRes where
  fs : FS
  err : Option Err
  trace : List (Op × FS)

mutual

/-- `create_structure`, instrumented with the trace of its calls.
`create_structure_tr_fs` and `create_structure_tr_err` prove it agrees
with `create_structure`. -/
def create_structure_tr (base : Path) (entries : List (String × Tree)) (fs : FS) :
    TRes :=
  match entries with
  | [] => ⟨fs, none, []⟩
  | (name, t) :: rest =>
    match create_entry_tr (base ++ [name]) t fs with
    | ⟨fs1, none, tr⟩ =>
      match create_structure_tr base rest fs1 with
      | ⟨fs2, e2, tr2⟩ => ⟨fs2, e2, tr ++ tr2⟩
    | ⟨fs1, some e, tr⟩ => ⟨fs1, some e, tr⟩

/-- Single-entry step of the instrumented walk. -/
def create_entry_tr (p : Path) (t : Tree) (fs : FS) : TRes :=
  match t with
  | Tree.node children =>
    match mkdirParents fs p with
    | (fs1, none) =>
      match create_structure_tr p children fs1 with
      | ⟨fs2, e2, tr2⟩ => ⟨fs2, e2, (Op.mkdirp p, fs) :: tr2⟩
    | (fs1, some e) => ⟨fs1, some e, [(Op.mkdirp p, fs)]⟩
  | Tree.scalar _ => ⟨(touch fs p).1, (touch fs p).2, [(Op.touchOp p, fs)]⟩

end

/-! ## Basic filesystem lemmas -/

theorem Grows_refl (fs : FS) : Grows fs fs := fun _ => Or.inl rfl

theorem Grows_trans {fs1 fs2 fs3 : FS} (h1 : Grows fs1 fs2) (h2 : Grows fs2 fs3) :
    Grows fs1 fs3 := by
  intro p
  rcases h2 p with h | ⟨h2a, h2b⟩
  · rw [h]; exact h1 p
  · rcases h1 p with h' | ⟨h1a, _⟩
    · exact Or.inr ⟨h' ▸ h2a, h2b⟩
    · exact Or.inr ⟨h1a, h2b⟩

theorem Grows.fsle {fs fs' : FS} (h : Grows fs fs') : FSLE fs fs' := by
  intro p e he
  rcases h p with h' | ⟨h1, _⟩
  · rw [h', he]
  · rw [h1] at he; exact absurd he (by simp)

theorem lookupFS_cons (q : Path) (e : Entry) (fs : FS) (p : Path) :
    lookupFS ((q, e) :: fs) p = if q = p then some e else lookupFS fs p := rfl

theorem Grows.insert_dir {fs : FS} {q : Path} (h : lookupFS fs q = none) :
    Grows fs ((q, Entry.dir) :: fs) := by
  intro p
  rw [lookupFS_cons]
  by_cases hq : q = p
  · subst hq; simp [h]
  · simp [hq]

theorem Grows.insert_file {fs : FS} {q : Path} (h : lookupFS fs q = none) :
    Grows fs ((q, Entry.file "") :: fs) := by
  intro p
  rw [lookupFS_cons]
  by_cases hq : q = p
  · subst hq; simp [h]
  · simp [hq]

theorem mkdirOne_grows (fs : FS) (q : Path) : Grows fs (mkdirOne fs q).1 := by
  unfold mkdirOne
  rcases h : lookupFS fs q with _ | e
  · exact Grows.insert_dir h
  · cases e <;> exact Grows_refl fs

theorem touch_grows (fs : FS) (q : Path) : Grows fs (touch fs q).1 := by
  unfold touch
  rcases h : lookupFS fs q with _ | e
  · rcases lookupFS fs q.dropLast with _ | e'
    · exact Grows_refl fs
    · cases e'
      · exact Grows.insert_file h
      · exact Grows_refl fs
  · exact Grows_refl fs

theorem mkdirBase_grows (fs : FS) (q : Path) : Grows fs (mkdirBase fs q).1 := by
  unfold mkdirBase
  rcases h : lookupFS fs q with _ | e
  · rcases lookupFS fs q.dropLast with _ | e'
    · exact Grows_refl fs
    · cases e'
      · exact Grows.insert_dir h
      · exact Grows_refl fs
  · cases e <;> exact Grows_refl fs

theorem andThen_grows {fs : FS} {r : FS × Option Err} {k : FS → FS × Option Err}
    (h1 : Grows fs r.1) (h2 : ∀ fs1, Grows fs1 (k fs1).1) :
    Grows fs (andThen r k).1 := by
  rcases r with ⟨fs1, e⟩
  cases e
  · exact Grows_trans h1 (h2 fs1)
  · exact h1

theorem mkdirList_grows (fs : FS) (l : List Path) : Grows fs (mkdirList fs l).1 := by
  induction l generalizing fs with
  | nil => exact Grows_refl fs
  | cons q rest ih =>
    exact andThen_grows (mkdirOne_grows fs q) (fun fs1 => ih fs1)

theorem mkdirParents_grows (fs : FS) (p : Path) : Grows fs (mkdirParents fs p).1 :=
  mkdirList_grows fs (prefixes p)

mutual

theorem create_structure_grows (base : Path) (entries : List (String × Tree))
    (fs : FS) : Grows fs (create_structure base entries fs).1 := by
  match entries with
  | [] => exact Grows_refl fs
  | (name, t) :: rest =>
    exact andThen_grows (create_entry_grows (base ++ [name]) t fs)
      (fun fs1 => create_structure_grows base rest fs1)

theorem create_entry_grows (p : Path) (t : Tree) (fs : FS) :
    Grows fs (create_entry p t fs).1 := by
  match t with
  | Tree.node children =>
    exact andThen_grows (mkdirParents_grows fs p)
      (fun fs1 => create_structure_grows p children fs1)
  | Tree.scalar c => exact touch_grows fs p

end

/-! ## Success and result lemmas for the primitives -/

theorem andThen_ok {r : FS × Option Err} {k : FS → FS × Option Err} {fs1 : FS}
    (h : r = (fs1, none)) : andThen r k = k fs1 := by
  subst h; rfl

theorem andThen_err {r : FS × Option Err} {k : FS → FS × Option Err} {fs1 : FS}
    {e : Err} (h : r = (fs1, some e)) : andThen r k = (fs1, some e) := by
  subst h; rfl

theorem andThen_snd_none {r : FS × Option Err} {k : FS → FS × Option Err}
    (h : (andThen r k).2 = none) :
    r.2 = none ∧ (k r.1).2 = none ∧ andThen r k = k r.1 := by
  rcases r with ⟨fs1, e⟩
  cases e with
  | none => exact ⟨rfl, h, rfl⟩
  | some e => exact absurd h (by simp [andThen])

theorem mkdirOne_of_isDir {fs : FS} {q : Path} (h : isDir fs q) :
    mkdirOne fs q = (fs, none) := by
  unfold mkdirOne
  rw [h]

theorem mkdirOne_isDir {fs : FS} {q : Path} (h : (mkdirOne fs q).2 = none) :
    isDir (mkdirOne fs q).1 q := by
  unfold mkdirOne at *
  rcases hq : lookupFS fs q with _ | e
  · simp [isDir, hq, lookupFS_cons]
  · cases e
    · simp [isDir, hq]
    · rw [hq] at h; exact absurd h (by simp)

theorem mkdirOne_file {fs : FS} {q : Path} {c : String}
    (h : lookupFS fs q = some (Entry.file c)) :
    mkdirOne fs q = (fs, some (Err.fileExists q)) := by
  unfold mkdirOne
  rw [h]

theorem mkdirList_isDir {l : List Path} {fs : FS}
    (h : (mkdirList fs l).2 = none) :
    ∀ q ∈ l, isDir (mkdirList fs l).1 q := by
  induction l generalizing fs with
  | nil => intro q hq; exact absurd hq (by simp)
  | cons q0 rest ih =>
    intro q hq
    unfold mkdirList at h ⊢
    rcases andThen_snd_none h with ⟨h1, h2, h3⟩
    rw [h3] at h ⊢
    rcases List.mem_cons.mp hq with rfl | hmem
    · have hd := mkdirOne_isDir h1
      exact (mkdirList_grows (mkdirOne fs q).1 rest).fsle q Entry.dir hd
    · exact ih h2 q hmem

theorem mem_prefixes_self (p : Path) : p ∈ prefixes p := by
  induction p with
  | nil => simp [prefixes]
  | cons x xs ih =>
    show x :: xs ∈ [] :: (prefixes xs).map (fun q => x :: q)
    exact List.mem_cons.mpr (Or.inr (List.mem_map.mpr ⟨xs, ih, rfl⟩))

theorem mkdirParents_isDir {fs : FS} {p : Path}
    (h : (mkdirParents fs p).2 = none) : isDir (mkdirParents fs p).1 p :=
  mkdirList_isDir h p (mem_prefixes_self p)

theorem touch_some {fs : FS} {p : Path} {e : Entry}
    (h : lookupFS fs p = some e) : touch fs p = (fs, none) := by
  unfold touch
  rw [h]

theorem touch_none_some {fs : FS} {p : Path}
    (hp : lookupFS fs p = none) (h : (touch fs p).2 = none) :
    lookupFS (touch fs p).1 p = some (Entry.file "") := by
  unfold touch at *
  rw [hp] at h ⊢
  rcases hq : lookupFS fs p.dropLast with _ | e
  · rw [hq] at h; exact absurd h (by simp)
  · cases e
    · simp [hq, lookupFS_cons]
    · rw [hq] at h; exact absurd h (by simp)

theorem touch_isSome {fs : FS} {p : Path} (h : (touch fs p).2 = none) :
    (lookupFS (touch fs p).1 p).isSome := by
  rcases hp : lookupFS fs p with _ | e
  · rw [touch_none_some hp h]; rfl
  · rw [(congrArg Prod.fst (touch_some hp) : (touch fs p).1 = fs), hp]; rfl

/-! ## The satisfied-state predicate, and idempotence -/

theorem isDirB_eq_true {fs : FS} {p : Path} : isDirB fs p = true ↔ isDir fs p := by
  unfold isDirB isDir
  rcases lookupFS fs p with _ | e
  · simp
  · cases e <;> simp

theorem isDirB_mono {fs fs' : FS} {p : Path} (hle : FSLE fs fs')
    (h : isDirB fs p = true) : isDirB fs' p = true := by
  rw [isDirB_eq_true] at h ⊢
  exact hle p Entry.dir h

mutual

theorem doneL_mono {fs fs' : FS} (base : Path) (entries : List (String × Tree))
    (hle : FSLE fs fs') (h : doneL base fs entries = true) :
    doneL base fs' entries = true := by
  match entries with
  | [] => rfl
  | (name, t) :: rest =>
    unfold doneL at h ⊢
    rw [Bool.and_eq_true] at h
    rcases h with ⟨h1, h2⟩
    rw [Bool.and_eq_true]
    exact ⟨doneT_mono (base ++ [name]) t hle h1, doneL_mono base rest hle h2⟩

theorem doneT_mono {fs fs' : FS} (p : Path) (t : Tree) (hle : FSLE fs fs')
    (h : doneT p fs t = true) : doneT p fs' t = true := by
  match t with
  | Tree.node children =>
    unfold doneT at h ⊢
    rw [Bool.and_eq_true] at h
    rcases h with ⟨h1, h2⟩
    rw [Bool.and_eq_true]
    refine ⟨?_, doneL_mono p children hle h2⟩
    rw [List.all_eq_true] at h1 ⊢
    exact fun q hq => isDirB_mono hle (h1 q hq)
  | Tree.scalar c =>
    unfold doneT at h ⊢
    rcases hp : lookupFS fs p with _ | e
    · rw [hp] at h; exact absurd h (by simp)
    · rw [hle p e hp]; rfl

end

mutual

/-- After a successful run, every obligation holds in the final state. -/
theorem create_structure_done {base : Path} {entries : List (String × Tree)}
    {fs : FS} (h : (create_structure base entries fs).2 = none) :
    doneL base (create_structure base entries fs).1 entries = true := by
  match entries with
  | [] => rfl
  | (name, t) :: rest =>
    unfold create_structure at h ⊢
    rcases andThen_snd_none h with ⟨h1, h2, h3⟩
    rw [h3] at h ⊢
    have hd := create_entry_done h1
    have hle := (create_structure_grows base rest (create_entry (base ++ [name]) t fs).1).fsle
    unfold doneL
    rw [Bool.and_eq_true]
    exact ⟨doneT_mono (base ++ [name]) t hle hd, create_structure_done h2⟩

theorem create_entry_done {p : Path} {t : Tree} {fs : FS}
    (h : (create_entry p t fs).2 = none) :
    doneT p (create_entry p t fs).1 t = true := by
  match t with
  | Tree.node children =>
    unfold create_entry at h ⊢
    rcases andThen_snd_none h with ⟨h1, h2, h3⟩
    rw [h3] at h ⊢
    have hdirs : ∀ q ∈ prefixes p, isDir (mkdirParents fs p).1 q := mkdirList_isDir h1
    have hle := (create_structure_grows p children (mkdirParents fs p).1).fsle
    unfold doneT
    rw [Bool.and_eq_true]
    refine ⟨?_, create_structure_done h2⟩
    rw [List.all_eq_true]
    intro q hq
    exact isDirB_mono hle (isDirB_eq_true.mpr (hdirs q hq))
  | Tree.scalar c =>
    unfold create_entry at h ⊢
    unfold doneT
    exact touch_isSome h

end

theorem mkdirList_of_done {l : List Path} {fs : FS}
    (h : ∀ q ∈ l, isDir fs q) : mkdirList fs l = (fs, none) := by
  induction l with
  | nil => rfl
  | cons q rest ih =>
    unfold mkdirList
    rw [andThen_ok (mkdirOne_of_isDir (h q (by simp)))]
    exact ih (fun q' hq' => h q' (List.mem_cons.mpr (Or.inr hq')))

mutual

/-- On a state where every obligation already holds, the walk is a
complete no-op: it returns the state unchanged and raises nothing. -/
theorem create_structure_of_done {base : Path} {entries : List (String × Tree)}
    {fs : FS} (h : doneL base fs entries = true) :
    create_structure base entries fs = (fs, none) := by
  match entries with
  | [] => rfl
  | (name, t) :: rest =>
    unfold doneL at h
    rw [Bool.and_eq_true] at h
    rcases h with ⟨h1, h2⟩
    unfold create_structure
    rw [andThen_ok (create_entry_of_done h1)]
    exact create_structure_of_done h2

theorem create_entry_of_done {p : Path} {t : Tree} {fs : FS}
    (h : doneT p fs t = true) : create_entry p t fs = (fs, none) := by
  match t with
  | Tree.node children =>
    unfold doneT at h
    rw [Bool.and_eq_true] at h
    rcases h with ⟨h1, h2⟩
    unfold create_entry mkdirParents
    rw [List.all_eq_true] at h1
    rw [andThen_ok (mkdirList_of_done (fun q hq => isDirB_eq_true.mp (h1 q hq)))]
    exact create_structure_of_done h2
  | Tree.scalar c =>
    unfold doneT at h
    unfold create_entry
    rcases hp : lookupFS fs p with _ | e
    · rw [hp] at h; exact absurd h (by simp)
    · exact touch_some hp

end

/-! ## What `done` says about reachable paths -/

mutual

theorem doneL_dirs {fs : FS} (base : Path) (entries : List (String × Tree))
    (h : doneL base fs entries = true) :
    ∀ q, (q, none) ∈ entryPaths base entries → isDir fs q := by
  match entries with
  | [] => intro q hq; exact absurd hq (by simp [entryPaths])
  | (name, t) :: rest =>
    intro q hq
    unfold doneL at h
    rw [Bool.and_eq_true] at h
    rcases h with ⟨h1, h2⟩
    unfold entryPaths at hq
    rcases List.mem_append.mp hq with hq' | hq'
    · exact doneT_dirs (base ++ [name]) t h1 q hq'
    · exact doneL_dirs base rest h2 q hq'

theorem doneT_dirs {fs : FS} (p : Path) (t : Tree) (h : doneT p fs t = true) :
    ∀ q, (q, none) ∈ nodePaths p t → isDir fs q := by
  match t with
  | Tree.node children =>
    intro q hq
    unfold doneT at h
    rw [Bool.and_eq_true] at h
    rcases h with ⟨h1, h2⟩
    unfold nodePaths at hq
    rcases List.mem_cons.mp hq with hq' | hq'
    · rcases Prod.mk.injEq .. ▸ hq' with ⟨rfl, -⟩
      rw [List.all_eq_true] at h1
      exact isDirB_eq_true.mp (h1 q (mem_prefixes_self q))
    · exact doneL_dirs p children h2 q hq'
  | Tree.scalar c =>
    intro q hq
    unfold nodePaths at hq
    rcases List.mem_singleton.mp hq with h'
    exact absurd (congrArg Prod.snd h') (by simp)

end

mutual

theorem doneL_scalars {fs : FS} (base : Path) (entries : List (String × Tree))
    (h : doneL base fs entries = true) :
    ∀ q c, (q, some c) ∈ entryPaths base entries → (lookupFS fs q).isSome := by
  match entries with
  | [] => intro q c hq; exact absurd hq (by simp [entryPaths])
  | (name, t) :: rest =>
    intro q c hq
    unfold doneL at h
    rw [Bool.and_eq_true] at h
    rcases h with ⟨h1, h2⟩
    unfold entryPaths at hq
    rcases List.mem_append.mp hq with hq' | hq'
    · exact doneT_scalars (base ++ [name]) t h1 q c hq'
    · exact doneL_scalars base rest h2 q c hq'

theorem doneT_scalars {fs : FS} (p : Path) (t : Tree) (h : doneT p fs t = true) :
    ∀ q c, (q, some c) ∈ nodePaths p t → (lookupFS fs q).isSome := by
  match t with
  | Tree.node children =>
    intro q c hq
    unfold doneT at h
    rw [Bool.and_eq_true] at h
    rcases h with ⟨-, h2⟩
    unfold nodePaths at hq
    rcases List.mem_cons.mp hq with hq' | hq'
    · exact absurd (congrArg Prod.snd hq') (by simp)
    · exact doneL_scalars p children h2 q c hq'
  | Tree.scalar c0 =>
    intro q c hq
    unfold nodePaths at hq
    rcases List.mem_singleton.mp hq with h'
    rcases Prod.mk.injEq .. ▸ h' with ⟨rfl, -⟩
    unfold doneT at h
    exact h

end

/-! ## Initial segments and locality of the walk -/

theorem initSeg_refl (p : Path) : initSeg p p := ⟨[], List.append_nil p⟩

theorem initSeg_trans {a b c : Path} (h1 : initSeg a b) (h2 : initSeg b c) :
    initSeg a c := by
  rcases h1 with ⟨r, rfl⟩
  rcases h2 with ⟨s, rfl⟩
  exact ⟨r ++ s, (List.append_assoc a r s).symm⟩

theorem initSeg.length {q p : Path} (h : initSeg q p) : q.length ≤ p.length := by
  rcases h with ⟨r, rfl⟩
  simp

theorem initSeg_append (q r : Path) : initSeg q (q ++ r) := ⟨r, rfl⟩

theorem initSeg_eq_of_length {a b p : Path} (h1 : initSeg a p) (h2 : initSeg b p)
    (h : a.length = b.length) : a = b := by
  rcases h1 with ⟨r, hr⟩
  rcases h2 with ⟨s, hs⟩
  exact (List.append_inj (hr.trans hs.symm) h).1

theorem initSeg_snoc {p base : Path} {name : String}
    (h : initSeg p (base ++ [name])) : initSeg p base ∨ p = base ++ [name] := by
  rcases h with ⟨r, hr⟩
  rcases List.eq_nil_or_concat r with rfl | ⟨r0, a, rfl⟩
  · right; rw [← hr, List.append_nil]
  · left
    rw [List.concat_eq_append, ← List.append_assoc] at hr
    exact ⟨r0, (List.append_inj' hr rfl).1⟩

theorem mem_prefixes_iff {q p : Path} : q ∈ prefixes p ↔ initSeg q p := by
  induction p generalizing q with
  | nil =>
    simp only [prefixes, List.mem_singleton]
    constructor
    · rintro rfl; exact initSeg_refl []
    · rintro ⟨r, hr⟩; exact List.append_eq_nil.mp hr |>.1
  | cons x xs ih =>
    simp only [prefixes, List.mem_cons, List.mem_map]
    constructor
    · rintro (rfl | ⟨q0, hq0, rfl⟩)
      · exact ⟨x :: xs, rfl⟩
      · rcases (ih.mp hq0) with ⟨r, rfl⟩
        exact ⟨r, rfl⟩
    · rintro ⟨r, hr⟩
      match q with
      | [] => exact Or.inl rfl
      | y :: q0 =>
        rcases List.cons.injEq .. ▸ hr with ⟨rfl, hr0⟩
        exact Or.inr ⟨q0, ih.mpr ⟨r, hr0⟩, rfl⟩

theorem lookup_mkdirOne_ne {fs : FS} {q p : Path} (h : p ≠ q) :
    lookupFS (mkdirOne fs q).1 p = lookupFS fs p := by
  unfold mkdirOne
  rcases lookupFS fs q with _ | e
  · rw [lookupFS_cons, if_neg (fun hqp => h hqp.symm)]
  · cases e <;> rfl

theorem lookup_touch_ne {fs : FS} {q p : Path} (h : p ≠ q) :
    lookupFS (touch fs q).1 p = lookupFS fs p := by
  unfold touch
  rcases lookupFS fs q with _ | e
  · rcases lookupFS fs q.dropLast with _ | e'
    · rfl
    · cases e'
      · rw [lookupFS_cons, if_neg (fun hqp => h hqp.symm)]
      · rfl
  · rfl

theorem lookup_mkdirList_nmem {l : List Path} {fs : FS} {p : Path}
    (h : p ∉ l) : lookupFS (mkdirList fs l).1 p = lookupFS fs p := by
  induction l generalizing fs with
  | nil => rfl
  | cons q rest ih =>
    unfold mkdirList
    have hne : p ≠ q := fun hpq => h (hpq ▸ List.mem_cons_self q rest)
    have hrest : p ∉ rest := fun hm => h (List.mem_cons.mpr (Or.inr hm))
    rcases hr : mkdirOne fs q with ⟨fs1, e⟩
    have hfs1 : lookupFS fs1 p = lookupFS fs p := by
      have h' := @lookup_mkdirOne_ne fs q p hne
      rw [hr] at h'
      exact h'
    cases e
    · simp only [andThen]
      rw [ih hrest, hfs1]
    · simp only [andThen]
      exact hfs1

theorem lookup_mkdirParents_out {fs : FS} {q p : Path} (h : ¬ initSeg p q) :
    lookupFS (mkdirParents fs q).1 p = lookupFS fs p :=
  lookup_mkdirList_nmem (fun hm => h (mem_prefixes_iff.mp hm))

mutual

theorem lookup_create_structure_out (base : Path) (entries : List (String × Tree))
    (fs : FS) (p : Path) (hb : ¬ initSeg p base)
    (hn : ∀ name t, (name, t) ∈ entries → ¬ initSeg (base ++ [name]) p) :
    lookupFS (create_structure base entries fs).1 p = lookupFS fs p := by
  match entries with
  | [] => rfl
  | (name, t) :: rest =>
    unfold create_structure
    have hmem : (name, t) ∈ (name, t) :: rest := List.mem_cons_self _ _
    have h2 : ¬ initSeg (base ++ [name]) p := hn name t hmem
    have h1 : ¬ initSeg p (base ++ [name]) := by
      intro hs
      rcases initSeg_snoc hs with hs' | rfl
      · exact hb hs'
      · exact h2 (initSeg_refl _)
    rcases hr : create_entry (base ++ [name]) t fs with ⟨fs1, e⟩
    have hfs1 : lookupFS fs1 p = lookupFS fs p := by
      have h' := lookup_create_entry_out (base ++ [name]) t fs p h1 h2
      rw [hr] at h'
      exact h'
    cases e
    · simp only [andThen]
      rw [lookup_create_structure_out base rest fs1 p hb
        (fun n' t' hm => hn n' t' (List.mem_cons.mpr (Or.inr hm))), hfs1]
    · simp only [andThen]
      exact hfs1

theorem lookup_create_entry_out (q : Path) (t : Tree) (fs : FS) (p : Path)
    (h1 : ¬ initSeg p q) (h2 : ¬ initSeg q p) :
    lookupFS (create_entry q t fs).1 p = lookupFS fs p := by
  match t with
  | Tree.node children =>
    unfold create_entry
    rcases hr : mkdirParents fs q with ⟨fs1, e⟩
    have hfs1 : lookupFS fs1 p = lookupFS fs p := by
      have h' := @lookup_mkdirParents_out fs q p h1
      rw [hr] at h'
      exact h'
    cases e
    · simp only [andThen]
      rw [lookup_create_structure_out q children fs1 p h1
        (fun n' t' _ => fun hs =>
          h2 (initSeg_trans (initSeg_append q [n']) hs)), hfs1]
    · simp only [andThen]
      exact hfs1
  | Tree.scalar c =>
    unfold create_entry
    exact lookup_touch_ne (fun hpq => h2 (hpq ▸ initSeg_refl q))

end

mutual

theorem entryPaths_initSeg {base : Path} {entries : List (String × Tree)}
    {q : Path} {k : Option String} (h : (q, k) ∈ entryPaths base entries) :
    ∃ n t, (n, t) ∈ entries ∧ initSeg (base ++ [n]) q := by
  match entries with
  | [] => exact absurd h (by simp [entryPaths])
  | (name, t) :: rest =>
    unfold entryPaths at h
    rcases List.mem_append.mp h with h' | h'
    · exact ⟨name, t, List.mem_cons_self _ _, nodePaths_initSeg h'⟩
    · rcases entryPaths_initSeg h' with ⟨n, t', hm, hs⟩
      exact ⟨n, t', List.mem_cons.mpr (Or.inr hm), hs⟩

theorem nodePaths_initSeg {p : Path} {t : Tree} {q : Path} {k : Option String}
    (h : (q, k) ∈ nodePaths p t) : initSeg p q := by
  match t with
  | Tree.node children =>
    unfold nodePaths at h
    rcases List.mem_cons.mp h with h' | h'
    · rcases Prod.mk.injEq .. ▸ h' with ⟨rfl, -⟩
      exact initSeg_refl _
    · rcases entryPaths_initSeg h' with ⟨n, t', -, hs⟩
      exact initSeg_trans (initSeg_append p [n]) hs
  | Tree.scalar c =>
    unfold nodePaths at h
    rcases List.mem_singleton.mp h with h'
    rcases Prod.mk.injEq .. ▸ h' with ⟨rfl, -⟩
    exact initSeg_refl _

end

/-! ## Creation of missing scalar paths (needs sibling-key uniqueness) -/

mutual

/-- A scalar path that is absent from the initial state is, after a
successful run over a duplicate-free entry list, bound to an empty
file. -/
theorem create_structure_scalar_new {base : Path} {entries : List (String × Tree)}
    {fs : FS} {q : Path} {c : String}
    (hn : nodupKeysL entries = true)
    (hq : (q, some c) ∈ entryPaths base entries)
    (h0 : lookupFS fs q = none)
    (h : (create_structure base entries fs).2 = none) :
    lookupFS (create_structure base entries fs).1 q = some (Entry.file "") := by
  match entries with
  | [] => exact absurd hq (by simp [entryPaths])
  | (name, t) :: rest =>
    unfold nodupKeysL at hn
    rw [Bool.and_eq_true, Bool.and_eq_true] at hn
    rcases hn with ⟨⟨hkeys, hnt⟩, hnrest⟩
    unfold create_structure at h ⊢
    rcases andThen_snd_none h with ⟨h1, h2, h3⟩
    rw [h3] at h ⊢
    unfold entryPaths at hq
    rcases List.mem_append.mp hq with hq' | hq'
    · have hfile := create_entry_scalar_new hnt hq' h0 h1
      exact (create_structure_grows base rest
        (create_entry (base ++ [name]) t fs).1).fsle q (Entry.file "") hfile
    · rcases entryPaths_initSeg hq' with ⟨n', t', hm', hs'⟩
      have hname : n' ≠ name := by
        rw [List.all_eq_true] at hkeys
        exact fun hx => by simpa [hx] using hkeys (n', t') hm'
      have hout2 : ¬ initSeg (base ++ [name]) q := by
        intro hs
        have hlen : (base ++ [name]).length = (base ++ [n']).length := by simp
        have heq := initSeg_eq_of_length hs hs' hlen
        have hne : name = n' := by simpa using heq
        exact hname hne.symm
      have hout1 : ¬ initSeg q (base ++ [name]) := by
        intro hs
        rcases initSeg_snoc hs with hs0 | rfl
        · have hle1 : q.length ≤ base.length := hs0.length
          have hle2 : base.length + 1 ≤ q.length := by
            have := hs'.length
            simpa using this
          omega
        · exact hout2 (initSeg_refl _)
      have h0' : lookupFS (create_entry (base ++ [name]) t fs).1 q = none := by
        rw [lookup_create_entry_out (base ++ [name]) t fs q hout1 hout2]
        exact h0
      exact create_structure_scalar_new hnrest hq' h0' h2

/-- Single-entry version of `create_structure_scalar_new`. -/
theorem create_entry_scalar_new {p : Path} {t : Tree} {fs : FS} {q : Path}
    {c : String}
    (hn : nodupKeysT t = true)
    (hq : (q, some c) ∈ nodePaths p t)
    (h0 : lookupFS fs q = none)
    (h : (create_entry p t fs).2 = none) :
    lookupFS (create_entry p t fs).1 q = some (Entry.file "") := by
  match t with
  | Tree.node children =>
    unfold create_entry at h ⊢
    rcases andThen_snd_none h with ⟨h1, h2, h3⟩
    rw [h3] at h ⊢
    unfold nodePaths at hq
    rcases List.mem_cons.mp hq with hq' | hq'
    · exact absurd (congrArg Prod.snd hq') (by simp)
    · rcases entryPaths_initSeg hq' with ⟨n', t', -, hs'⟩
      have h0' : lookupFS (mkdirParents fs p).1 q = none := by
        rw [lookup_mkdirParents_out ?_]
        · exact h0
        · intro hs
          have hle1 : q.length ≤ p.length := hs.length
          have hle2 : p.length + 1 ≤ q.length := by
            have := hs'.length
            simpa using this
          omega
      exact create_structure_scalar_new (by unfold nodupKeysT at hn; exact hn)
        hq' h0' h2
  | Tree.scalar c0 =>
    unfold nodePaths at hq
    rcases List.mem_singleton.mp hq with h'
    rcases Prod.mk.injEq .. ▸ h' with ⟨rfl, -⟩
    unfold create_entry at h ⊢
    exact touch_none_some h0 h

end

/-! ## Instrumented walk: the sequence of filesystem calls it performs -/

theorem create_structure_tr_nil (base : Path) (fs : FS) :
    create_structure_tr base [] fs = ⟨fs, none, []⟩ := rfl

theorem create_structure_tr_cons_none {base : Path} {name : String} {t : Tree}
    {rest : List (String × Tree)} {fs fs1 : FS} {tr : List (Op × FS)}
    (h : create_entry_tr (base ++ [name]) t fs = ⟨fs1, none, tr⟩) :
    create_structure_tr base ((name, t) :: rest) fs =
      ⟨(create_structure_tr base rest fs1).fs,
       (create_structure_tr base rest fs1).err,
       tr ++ (create_structure_tr base rest fs1).trace⟩ := by
  rcases hr : create_structure_tr base rest fs1 with ⟨fs2, e2, tr2⟩
  dsimp only
  unfold create_structure_tr
  rw [h]
  dsimp only
  rw [hr]

theorem create_structure_tr_cons_some {base : Path} {name : String} {t : Tree}
    {rest : List (String × Tree)} {fs fs1 : FS} {tr : List (Op × FS)} {e : Err}
    (h : create_entry_tr (base ++ [name]) t fs = ⟨fs1, some e, tr⟩) :
    create_structure_tr base ((name, t) :: rest) fs = ⟨fs1, some e, tr⟩ := by
  unfold create_structure_tr
  rw [h]

theorem create_entry_tr_node_ok {p : Path} {children : List (String × Tree)}
    {fs fs1 : FS} (h : mkdirParents fs p = (fs1, none)) :
    create_entry_tr p (Tree.node children) fs =
      ⟨(create_structure_tr p children fs1).fs,
       (create_structure_tr p children fs1).err,
       (Op.mkdirp p, fs) :: (create_structure_tr p children fs1).trace⟩ := by
  rcases hr : create_structure_tr p children fs1 with ⟨fs2, e2, tr2⟩
  dsimp only
  unfold create_entry_tr
  rw [h]
  dsimp only
  rw [hr]

theorem create_entry_tr_node_err {p : Path} {children : List (String × Tree)}
    {fs fs1 : FS} {e : Err} (h : mkdirParents fs p = (fs1, some e)) :
    create_entry_tr p (Tree.node children) fs = ⟨fs1, some e, [(Op.mkdirp p, fs)]⟩ := by
  unfold create_entry_tr
  rw [h]

theorem create_entry_tr_scalar (p : Path) (c : String) (fs : FS) :
    create_entry_tr p (Tree.scalar c) fs =
      ⟨(touch fs p).1, (touch fs p).2, [(Op.touchOp p, fs)]⟩ := rfl

mutual

theorem create_structure_tr_agrees (base : Path) (entries : List (String × Tree))
    (fs : FS) :
    (create_structure_tr base entries fs).fs = (create_structure base entries fs).1 ∧
    (create_structure_tr base entries fs).err = (create_structure base entries fs).2 := by
  match entries with
  | [] => exact ⟨rfl, rfl⟩
  | (name, t) :: rest =>
    have hce := create_entry_tr_agrees (base ++ [name]) t fs
    rcases hre : create_entry_tr (base ++ [name]) t fs with ⟨fs1, e1, tr⟩
    rw [hre] at hce
    dsimp only at hce
    rcases hce with ⟨hfs, herr⟩
    cases e1 with
    | none =>
      have hceq : create_entry (base ++ [name]) t fs = (fs1, none) := by
        rw [Prod.ext_iff]
        exact ⟨hfs.symm, herr.symm⟩
      rw [create_structure_tr_cons_none hre]
      unfold create_structure
      rw [andThen_ok hceq]
      dsimp only
      exact create_structure_tr_agrees base rest fs1
    | some e =>
      have hceq : create_entry (base ++ [name]) t fs = (fs1, some e) := by
        rw [Prod.ext_iff]
        exact ⟨hfs.symm, herr.symm⟩
      rw [create_structure_tr_cons_some hre]
      unfold create_structure
      rw [andThen_err hceq]
      exact ⟨rfl, rfl⟩

theorem create_entry_tr_agrees (p : Path) (t : Tree) (fs : FS) :
    (create_entry_tr p t fs).fs = (create_entry p t fs).1 ∧
    (create_entry_tr p t fs).err = (create_entry p t fs).2 := by
  match t with
  | Tree.node children =>
    rcases hm : mkdirParents fs p with ⟨fs1, e1⟩
    cases e1 with
    | none =>
      rw [create_entry_tr_node_ok hm]
      unfold create_entry
      rw [andThen_ok hm]
      dsimp only
      exact create_structure_tr_agrees p children fs1
    | some e =>
      rw [create_entry_tr_node_err hm]
      unfold create_entry
      rw [andThen_err hm]
      exact ⟨rfl, rfl⟩
  | Tree.scalar c => exact ⟨rfl, rfl⟩

end

theorem dropLast_snoc (l : Path) (a : String) : (l ++ [a]).dropLast = l := by
  simp

mutual

/-- Every operation the walk issues, at the moment it is issued, sees
its child path's parent directory on disk — provided the base directory
existed when the walk started. -/
theorem create_structure_tr_parents {base : Path} {entries : List (String × Tree)}
    {fs : FS} (hb : isDir fs base) :
    ∀ x ∈ (create_structure_tr base entries fs).trace,
      isDir x.2 ((Op.path x.1).dropLast) := by
  match entries with
  | [] => intro x hx; exact absurd hx (by simp [create_structure_tr_nil])
  | (name, t) :: rest =>
    intro x hx
    have hbname : isDir fs (base ++ [name]).dropLast := by
      rw [dropLast_snoc]; exact hb
    have hce := (create_entry_tr_agrees (base ++ [name]) t fs).1
    have hpar := create_entry_tr_parents (t := t) hbname
    rcases hre : create_entry_tr (base ++ [name]) t fs with ⟨fs1, e1, tr⟩
    rw [hre] at hce hpar
    dsimp only at hce hpar
    cases e1 with
    | none =>
      rw [create_structure_tr_cons_none hre] at hx
      dsimp only at hx
      rcases List.mem_append.mp hx with hx' | hx'
      · exact hpar x hx'
      · have hb1 : isDir fs1 base := by
          have hgrow := (create_entry_grows (base ++ [name]) t fs).fsle
          rw [← hce] at hgrow
          exact hgrow base Entry.dir hb
        exact @create_structure_tr_parents base rest fs1 hb1 x hx'
    | some e =>
      rw [create_structure_tr_cons_some hre] at hx
      exact hpar x hx

/-- Single-entry version of `create_structure_tr_parents`: the
hypothesis is about the parent of the entry's own path. -/
theorem create_entry_tr_parents {p : Path} {t : Tree} {fs : FS}
    (hb : isDir fs p.dropLast) :
    ∀ x ∈ (create_entry_tr p t fs).trace,
      isDir x.2 ((Op.path x.1).dropLast) := by
  match t with
  | Tree.node children =>
    intro x hx
    rcases hm : mkdirParents fs p with ⟨fs1, e1⟩
    cases e1 with
    | none =>
      rw [create_entry_tr_node_ok hm] at hx
      dsimp only at hx
      rcases List.mem_cons.mp hx with rfl | hx'
      · exact hb
      · have hdir1 : isDir fs1 p := by
          have h' := @mkdirParents_isDir fs p (by rw [hm])
          rw [hm] at h'
          exact h'
        exact @create_structure_tr_parents p children fs1 hdir1 x hx'
    | some e =>
      rw [create_entry_tr_node_err hm] at hx
      dsimp only at hx
      rcases List.mem_singleton.mp hx with rfl
      exact hb
  | Tree.scalar c =>
    intro x hx
    rw [create_entry_tr_scalar] at hx
    rcases List.mem_singleton.mp hx with rfl
    exact hb

end

theorem andThen_assoc (r : FS × Option Err) (k1 k2 : FS → FS × Option Err) :
    andThen (andThen r k1) k2 = andThen r (fun fs => andThen (k1 fs) k2) := by
  rcases r with ⟨fs, e⟩
  cases e <;> rfl

theorem create_structure_append (base : Path) (pre rest : List (String × Tree))
    (fs : FS) :
    create_structure base (pre ++ rest) fs =
      andThen (create_structure base pre fs)
        (fun fs1 => create_structure base rest fs1) := by
  induction pre generalizing fs with
  | nil => rfl
  | cons a pre ih =>
    rcases a with ⟨name, t⟩
    show andThen (create_entry (base ++ [name]) t fs)
        (fun fs1 => create_structure base (pre ++ rest) fs1) = _
    rw [show create_structure base ((name, t) :: pre) fs =
        andThen (create_entry (base ++ [name]) t fs)
          (fun fs1 => create_structure base pre fs1) from rfl]
    rw [andThen_assoc]
    exact congrArg _ (funext fun fs1 => ih fs1)

theorem mkdirList_no_file {l : List Path} {fs : FS}
    (h : ∀ q ∈ l, isFileB fs q = false) : (mkdirList fs l).2 = none := by
  induction l generalizing fs with
  | nil => rfl
  | cons q rest ih =>
    unfold mkdirList
    rcases hq0 : lookupFS fs q with _ | e
    · have hone : mkdirOne fs q = ((q, Entry.dir) :: fs, none) := by
        unfold mkdirOne; rw [hq0]
      rw [andThen_ok hone]
      apply ih
      intro q' hq'
      unfold isFileB
      rw [lookupFS_cons]
      by_cases hqq : q = q'
      · rw [if_pos hqq]
      · rw [if_neg hqq]
        have := h q' (List.mem_cons.mpr (Or.inr hq'))
        unfold isFileB at this
        exact this
    · cases e
      · have hone : mkdirOne fs q = (fs, none) := by
          unfold mkdirOne; rw [hq0]
        rw [andThen_ok hone]
        exact ih (fun q' hq' => h q' (List.mem_cons.mpr (Or.inr hq')))
      · exact absurd (h q (List.mem_cons_self q rest))
          (by unfold isFileB; rw [hq0]; simp)

theorem create_structure_single_dir (base : Path) (name : String) (fs : FS) :
    create_structure base [(name, Tree.node [])] fs =
      mkdirParents fs (base ++ [name]) := by
  unfold create_structure create_entry
  rcases hm : mkdirParents fs (base ++ [name]) with ⟨fs1, e⟩
  cases e <;> rfl

theorem create_structure_single_scalar (base : Path) (name : String) (c : String)
    (fs : FS) :
    create_structure base [(name, Tree.scalar c)] fs = touch fs (base ++ [name]) := by
  unfold create_structure create_entry
  rcases ht : touch fs (base ++ [name]) with ⟨fs1, e⟩
  cases e <;> rfl

/-! ## The claims -/

/-- Claim C1 (amended): after `materialize(P, T)` completes successfully
on a tree whose sibling keys are unique, every mapping path exists as a
directory; every scalar path exists on disk, and is a file — empty when
it was newly created — except that a directory which already occupied a
scalar path before the run is silently left in place. -/
theorem c1_structural_fidelity {base : Path} {entries : List (String × Tree)}
    {fs : FS}
    (hn : nodupKeysL entries = true)
    (h : (create_structure base entries fs).2 = none) :
    (∀ q, (q, none) ∈ entryPaths base entries →
      isDir (create_structure base entries fs).1 q) ∧
    (∀ q c, (q, some c) ∈ entryPaths base entries →
      (lookupFS (create_structure base entries fs).1 q).isSome ∧
      (lookupFS fs q = none →
        lookupFS (create_structure base entries fs).1 q = some (Entry.file "")) ∧
      (¬ isDir fs q →
        ∃ cc, lookupFS (create_structure base entries fs).1 q =
          some (Entry.file cc))) := by
  have hd := create_structure_done h
  refine ⟨doneL_dirs base entries hd, ?_⟩
  intro q c hq
  refine ⟨doneL_scalars base entries hd q c hq, ?_, ?_⟩
  · intro h0
    exact create_structure_scalar_new hn hq h0 h
  · intro hnd
    rcases h0 : lookupFS fs q with _ | e
    · exact ⟨"", create_structure_scalar_new hn hq h0 h⟩
    · cases e with
      | dir => exact absurd h0 hnd
      | file cc =>
        exact ⟨cc, (create_structure_grows base entries fs).fsle q _ h0⟩

/-- Claim C1 counterexample: a directory already occupies the scalar
path `b/f.txt`; the run completes successfully, yet that path does not
exist as a file afterwards (it stays a directory), refuting the claim as
stated. -/
theorem c1_counterexample :
    (create_structure ["b"] [("f.txt", Tree.scalar "")]
      [([], Entry.dir), (["b"], Entry.dir), (["b", "f.txt"], Entry.dir)]).2 = none ∧
    (["b", "f.txt"], some "") ∈ entryPaths ["b"] [("f.txt", Tree.scalar "")] ∧
    isFileB (create_structure ["b"] [("f.txt", Tree.scalar "")]
      [([], Entry.dir), (["b"], Entry.dir), (["b", "f.txt"], Entry.dir)]).1
      ["b", "f.txt"] = false := by decide

/-- Claim C1 witness: a fresh run over `{a: {x.txt: ""}}` creates `a`
as a directory. -/
theorem c1_witness :
    nodupKeysL [("a", Tree.node [("x.txt", Tree.scalar "")])] = true ∧
    (create_structure [] [("a", Tree.node [("x.txt", Tree.scalar "")])]
      [([], Entry.dir)]).2 = none ∧
    isDir (create_structure [] [("a", Tree.node [("x.txt", Tree.scalar "")])]
      [([], Entry.dir)]).1 ["a"] :=
  ⟨by decide, by decide,
    (@c1_structural_fidelity [] [("a", Tree.node [("x.txt", Tree.scalar "")])]
      [([], Entry.dir)] (by decide) (by decide)).1 ["a"] (by decide)⟩

/-- Claim C2: after a successful `materialize(P, T)` run, invoking it
again on the resulting state returns that state unchanged, with no
error — the whole walk is create-if-absent. -/
theorem c2_idempotence {base : Path} {entries : List (String × Tree)}
    {fs fs' : FS} (h : create_structure base entries fs = (fs', none)) :
    create_structure base entries fs' = (fs', none) := by
  have h2 : (create_structure base entries fs).2 = none := by rw [h]
  have hd := create_structure_done h2
  rw [h] at hd
  exact create_structure_of_done hd

/-- Claim C2 witness: a concrete double run over `{a: {x.txt: ""}, b.txt: ""}`. -/
theorem c2_witness :
    create_structure [] [("a", Tree.node [("x.txt", Tree.scalar "")]),
        ("b.txt", Tree.scalar "")] [([], Entry.dir)] =
      ([(["b.txt"], Entry.file ""), (["a", "x.txt"], Entry.file ""),
        (["a"], Entry.dir), ([], Entry.dir)], none) ∧
    create_structure [] [("a", Tree.node [("x.txt", Tree.scalar "")]),
        ("b.txt", Tree.scalar "")]
      [(["b.txt"], Entry.file ""), (["a", "x.txt"], Entry.file ""),
        (["a"], Entry.dir), ([], Entry.dir)] =
      ([(["b.txt"], Entry.file ""), (["a", "x.txt"], Entry.file ""),
        (["a"], Entry.dir), ([], Entry.dir)], none) :=
  ⟨by decide,
    @c2_idempotence [] [("a", Tree.node [("x.txt", Tree.scalar "")]),
        ("b.txt", Tree.scalar "")] [([], Entry.dir)]
      [(["b.txt"], Entry.file ""), (["a", "x.txt"], Entry.file ""),
        (["a"], Entry.dir), ([], Entry.dir)] (by decide)⟩

/-- Claim C3: a file holding non-empty data before the run keeps its
exact content afterwards (even if the run aborts), and any path the run
newly binds is a directory or an empty file — existing entries are
never rewritten and new files are created empty. -/
theorem c3_non_destructive {base : Path} {entries : List (String × Tree)}
    {fs : FS} {q : Path} {c : String}
    (hq : lookupFS fs q = some (Entry.file c)) (hc : c ≠ "") :
    lookupFS (create_structure base entries fs).1 q = some (Entry.file c) ∧
    (∀ p, lookupFS fs p = none →
      lookupFS (create_structure base entries fs).1 p = none ∨
      lookupFS (create_structure base entries fs).1 p = some Entry.dir ∨
      lookupFS (create_structure base entries fs).1 p = some (Entry.file "")) := by
  have hg := create_structure_grows base entries fs
  refine ⟨hg.fsle q _ hq, ?_⟩
  intro p hp
  rcases hg p with h' | ⟨-, h2⟩
  · rw [h', hp]
    exact Or.inl rfl
  · rcases h2 with h2 | h2
    · exact Or.inr (Or.inl h2)
    · exact Or.inr (Or.inr h2)

/-- Claim C3 witness: a run over `{notes.txt: ""}` on a state where
`notes.txt` already holds `"data"` leaves that content intact. -/
theorem c3_witness :
    lookupFS [([], Entry.dir), (["notes.txt"], Entry.file "data")] ["notes.txt"]
      = some (Entry.file "data") ∧
    lookupFS (create_structure [] [("notes.txt", Tree.scalar "")]
      [([], Entry.dir), (["notes.txt"], Entry.file "data")]).1 ["notes.txt"]
      = some (Entry.file "data") :=
  ⟨by decide,
    (@c3_non_destructive [] [("notes.txt", Tree.scalar "")]
      [([], Entry.dir), (["notes.txt"], Entry.file "data")] ["notes.txt"] "data"
      (by decide) (by decide)).1⟩

/-- Claim C4 (amended): provided the base path exists as a directory
when the run starts (the spec's stated precondition for `materialize`),
every filesystem operation the traversal issues references a child path
whose parent directory already exists at the moment of the call. -/
theorem c4_parent_before_child {base : Path} {entries : List (String × Tree)}
    {fs : FS} (hb : isDir fs base) :
    ∀ x ∈ (create_structure_tr base entries fs).trace,
      isDir x.2 ((Op.path x.1).dropLast) :=
  create_structure_tr_parents hb

/-- Claim C4 counterexample: with a missing base path `b`, the walk
still issues `touch("b/f.txt")`, referencing a child path whose parent
does not exist at the moment of the call — refuting the claim for
arbitrary runs. -/
theorem c4_counterexample :
    (Op.touchOp ["b", "f.txt"], ([([], Entry.dir)] : FS)) ∈
      (create_structure_tr ["b"] [("f.txt", Tree.scalar "")]
        [([], Entry.dir)]).trace ∧
    ¬ isDir [([], Entry.dir)]
      ((Op.path (Op.touchOp ["b", "f.txt"])).dropLast) := by decide

/-- Claim C4 witness: with the base `[]` present, the single `mkdir`
issued for `{a: {}}` sees its parent on disk. -/
theorem c4_witness :
    isDir [([], Entry.dir)] [] ∧
    isDir [([], Entry.dir)] ((Op.path (Op.mkdirp ["a"])).dropLast) :=
  ⟨by decide,
    @c4_parent_before_child [] [("a", Tree.node [])] [([], Entry.dir)]
      (by decide) (Op.mkdirp ["a"], [([], Entry.dir)]) (by decide)⟩

/-- Claim C5 (amended): when a plain file occupies a path the tree
requires to be a directory, `materialize` cannot succeed — it raises a
filesystem error.  (The converse wrong kind, a directory occupying a
scalar path, is not rejected; see the counterexample and claim C8.) -/
theorem c5_wrong_kind_collision {base : Path} {entries : List (String × Tree)}
    {fs : FS} {q : Path} {c : String}
    (hq : (q, none) ∈ entryPaths base entries)
    (hf : lookupFS fs q = some (Entry.file c)) :
    (create_structure base entries fs).2 ≠ none := by
  intro h
  have hd : lookupFS (create_structure base entries fs).1 q = some Entry.dir :=
    doneL_dirs base entries (create_structure_done h) q hq
  have hp := (create_structure_grows base entries fs).fsle q _ hf
  have : some Entry.dir = some (Entry.file c) := hd.symm.trans hp
  exact absurd this (by simp)

/-- Claim C5 counterexample: a directory occupies the path of scalar
`f.txt` — the wrong kind for what the tree requires — yet the run
raises no error, refuting the claim in that direction. -/
theorem c5_counterexample :
    isDirB [([], Entry.dir), (["b"], Entry.dir), (["b", "f.txt"], Entry.dir)]
      ["b", "f.txt"] = true ∧
    (create_structure ["b"] [("f.txt", Tree.scalar "")]
      [([], Entry.dir), (["b"], Entry.dir), (["b", "f.txt"], Entry.dir)]).2
      = none := by decide

/-- Claim C5 witness: a file at `a` makes materializing `{a: {}}` fail. -/
theorem c5_witness :
    lookupFS [([], Entry.dir), (["a"], Entry.file "x")] ["a"]
      = some (Entry.file "x") ∧
    (create_structure [] [("a", Tree.node [])]
      [([], Entry.dir), (["a"], Entry.file "x")]).2 ≠ none :=
  ⟨by decide,
    @c5_wrong_kind_collision [] [("a", Tree.node [])]
      [([], Entry.dir), (["a"], Entry.file "x")] ["a"] "x"
      (by decide) (by decide)⟩

/-- Claim C6: if the walk fails while processing the remaining siblings,
the same failing state and error propagate to the whole run unchanged
(no catch, no retry, no rollback), and every sibling subtree processed
strictly before the failing point remains fully materialized in the
state left behind. -/
theorem c6_partial_failure {base : Path} {pre rest : List (String × Tree)}
    {fs fs1 fs2 : FS} {e : Err}
    (h1 : create_structure base pre fs = (fs1, none))
    (h2 : create_structure base rest fs1 = (fs2, some e)) :
    create_structure base (pre ++ rest) fs = (fs2, some e) ∧
    doneL base fs2 pre = true := by
  constructor
  · rw [create_structure_append, andThen_ok h1, h2]
  · have hd := create_structure_done
      (show (create_structure base pre fs).2 = none by rw [h1])
    rw [h1] at hd
    have hle : FSLE fs1 fs2 := by
      have hg := (create_structure_grows base rest fs1).fsle
      rw [h2] at hg
      exact hg
    exact doneL_mono base pre hle hd

/-- Claim C6 witness: `a` materializes, then `c` (occupied by a file)
fails; the combined run returns that same error and partial state, in
which `a` is still fully materialized. -/
theorem c6_witness :
    create_structure [] [("a", Tree.node [])]
      [([], Entry.dir), (["c"], Entry.file "z")] =
      ([(["a"], Entry.dir), ([], Entry.dir), (["c"], Entry.file "z")], none) ∧
    create_structure [] [("c", Tree.node [])]
      [(["a"], Entry.dir), ([], Entry.dir), (["c"], Entry.file "z")] =
      ([(["a"], Entry.dir), ([], Entry.dir), (["c"], Entry.file "z")],
        some (Err.fileExists ["c"])) ∧
    create_structure [] ([("a", Tree.node [])] ++ [("c", Tree.node [])])
      [([], Entry.dir), (["c"], Entry.file "z")] =
      ([(["a"], Entry.dir), ([], Entry.dir), (["c"], Entry.file "z")],
        some (Err.fileExists ["c"])) :=
  ⟨by decide, by decide,
    (@c6_partial_failure [] [("a", Tree.node [])] [("c", Tree.node [])]
      [([], Entry.dir), (["c"], Entry.file "z")]
      [(["a"], Entry.dir), ([], Entry.dir), (["c"], Entry.file "z")]
      [(["a"], Entry.dir), ([], Entry.dir), (["c"], Entry.file "z")]
      (Err.fileExists ["c"]) (by decide) (by decide)).1⟩

/-- Claim C7: a missing file at the path of a scalar entry is created
with zero bytes even when the scalar's value is a non-empty string —
the seed content is never written. -/
theorem c7_seed_not_written {base : Path} {entries : List (String × Tree)}
    {fs : FS} {q : Path} {c : String}
    (hn : nodupKeysL entries = true)
    (hq : (q, some c) ∈ entryPaths base entries)
    (hc : c ≠ "")
    (h0 : lookupFS fs q = none)
    (h : (create_structure base entries fs).2 = none) :
    lookupFS (create_structure base entries fs).1 q = some (Entry.file "") ∧
    lookupFS (create_structure base entries fs).1 q ≠ some (Entry.file c) := by
  have hf := create_structure_scalar_new hn hq h0 h
  refine ⟨hf, ?_⟩
  rw [hf]
  intro hcc
  have : ("" : String) = c := by
    have := Option.some.inj hcc
    cases this
    rfl
  exact hc this.symm

/-- Claim C7 witness: `{f.txt: "seed"}` creates `f.txt` empty, not with
content `"seed"`. -/
theorem c7_witness :
    (create_structure [] [("f.txt", Tree.scalar "seed")] [([], Entry.dir)]).2
      = none ∧
    lookupFS (create_structure [] [("f.txt", Tree.scalar "seed")]
      [([], Entry.dir)]).1 ["f.txt"] = some (Entry.file "") :=
  ⟨by decide,
    (@c7_seed_not_written [] [("f.txt", Tree.scalar "seed")] [([], Entry.dir)]
      ["f.txt"] "seed" (by decide) (by decide) (by decide) (by decide)
      (by decide)).1⟩

/-- Claim C8: an existing directory at a path the tree designates as a
file raises no error and is left in place — `touch` accepts it as a
no-op, any run preserves the directory entry, and materializing that
single scalar entry returns the state unchanged with no error. -/
theorem c8_asymmetric_collision {fs : FS} {base q : Path} {name : String}
    {c : String} (entries : List (String × Tree))
    (hdir : isDir fs q)
    (hdir2 : isDir fs (base ++ [name])) :
    touch fs q = (fs, none) ∧
    isDir (create_structure base entries fs).1 q ∧
    create_structure base [(name, Tree.scalar c)] fs = (fs, none) := by
  refine ⟨touch_some hdir, ?_, ?_⟩
  · exact (create_structure_grows base entries fs).fsle q Entry.dir hdir
  · rw [create_structure_single_scalar]
    exact touch_some hdir2

/-- Claim C8 witness: a directory at `b/f.txt` survives, untouched and
unreported, the materialization of scalar `f.txt`. -/
theorem c8_witness :
    isDir [([], Entry.dir), (["b"], Entry.dir), (["b", "f.txt"], Entry.dir)]
      ["b", "f.txt"] ∧
    create_structure ["b"] [("f.txt", Tree.scalar "")]
      [([], Entry.dir), (["b"], Entry.dir), (["b", "f.txt"], Entry.dir)] =
      ([([], Entry.dir), (["b"], Entry.dir), (["b", "f.txt"], Entry.dir)], none) :=
  ⟨by decide,
    (@c8_asymmetric_collision
      [([], Entry.dir), (["b"], Entry.dir), (["b", "f.txt"], Entry.dir)]
      ["b"] ["b", "f.txt"] "f.txt" "" [] (by decide) (by decide)).2.2⟩

/-- Claim C9: with a missing base path, a mapping entry succeeds —
`mkdir(parents=True)` creates the base and the child — while a scalar
entry fails with a file-not-found error at its child path. -/
theorem c9_missing_base {base : Path} {name name2 : String} {c : String}
    {fs : FS}
    (hb : lookupFS fs base = none)
    (hpre : (prefixes (base ++ [name])).all (fun q => !(isFileB fs q)) = true)
    (ht : lookupFS fs (base ++ [name2]) = none) :
    ((create_structure base [(name, Tree.node [])] fs).2 = none ∧
     isDir (create_structure base [(name, Tree.node [])] fs).1 base ∧
     isDir (create_structure base [(name, Tree.node [])] fs).1 (base ++ [name])) ∧
    create_structure base [(name2, Tree.scalar c)] fs =
      (fs, some (Err.fileNotFound (base ++ [name2]))) := by
  constructor
  · rw [create_structure_single_dir]
    rw [List.all_eq_true] at hpre
    have hnof : ∀ q ∈ prefixes (base ++ [name]), isFileB fs q = false := by
      intro q hq
      simpa using hpre q hq
    have hok : (mkdirParents fs (base ++ [name])).2 = none :=
      mkdirList_no_file hnof
    refine ⟨hok, ?_, ?_⟩
    · exact mkdirList_isDir hok base
        (mem_prefixes_iff.mpr ⟨[name], rfl⟩)
    · exact mkdirList_isDir hok (base ++ [name]) (mem_prefixes_self _)
  · rw [create_structure_single_scalar]
    unfold touch
    rw [ht, dropLast_snoc, hb]

/-- Claim C9 witness: under the absent base `proj`, the mapping entry
`sub` succeeds and creates both directories; the scalar entry `f.txt`
fails with file-not-found. -/
theorem c9_witness :
    ((create_structure ["proj"] [("sub", Tree.node [])] [([], Entry.dir)]).2
        = none ∧
      isDir (create_structure ["proj"] [("sub", Tree.node [])]
        [([], Entry.dir)]).1 ["proj"]) ∧
    create_structure ["proj"] [("f.txt", Tree.scalar "")] [([], Entry.dir)] =
      ([([], Entry.dir)], some (Err.fileNotFound ["proj", "f.txt"])) :=
  ⟨⟨((@c9_missing_base ["proj"] "sub" "f.txt" "" [([], Entry.dir)]
      (by decide) (by decide) (by decide)).1).1,
    ((@c9_missing_base ["proj"] "sub" "f.txt" "" [([], Entry.dir)]
      (by decide) (by decide) (by decide)).1).2.1⟩,
    (@c9_missing_base ["proj"] "sub" "f.txt" "" [([], Entry.dir)]
      (by decide) (by decide) (by decide)).2⟩

/-- Claim C10: the catalog's single root key repeats the entry point's
base directory name, so a successful `create_directory_structure` run
materializes the project under
`cwd/whatsapp-web-clone/whatsapp-web-clone` — one level deeper than the
base directory. -/
theorem c10_doubly_nested_root {cwd : Path} {fs : FS}
    (h : (create_directory_structure cwd fs).2 = none) :
    projectStructure.map Prod.fst = ["whatsapp-web-clone"] ∧
    isDir (create_directory_structure cwd fs).1
      (cwd ++ ["whatsapp-web-clone", "whatsapp-web-clone"]) := by
  refine ⟨rfl, ?_⟩
  unfold create_directory_structure at h ⊢
  rcases andThen_snd_none h with ⟨-, h2, h3⟩
  rw [h3]
  rw [show cwd ++ ["whatsapp-web-clone", "whatsapp-web-clone"] =
      (cwd ++ ["whatsapp-web-clone"]) ++ ["whatsapp-web-clone"] from
    (List.append_assoc cwd ["whatsapp-web-clone"] ["whatsapp-web-clone"]).symm]
  refine doneL_dirs _ _ (create_structure_done h2) _ ?_
  unfold projectStructure entryPaths nodePaths
  exact List.mem_append.mpr (Or.inl (List.mem_cons_self _ _))

/-- Claim C10 witness: running the entry point on a filesystem holding
only the root directory yields `whatsapp-web-clone/whatsapp-web-clone`
as a directory. -/
theorem c10_witness :
    (create_directory_structure [] [([], Entry.dir)]).2 = none ∧
    isDir (create_directory_structure [] [([], Entry.dir)]).1
      ["whatsapp-web-clone", "whatsapp-web-clone"] := by
  have h : (create_directory_structure [] [([], Entry.dir)]).2 = none := by
    decide
  exact ⟨h, (c10_doubly_nested_root h).2⟩

end WhatsappScaffold